import Mathlib

/-!
Verification of the domuser BBS-agent runtime against its specification.

Each section shallowly embeds one component of the TypeScript source
(action parser, action executor, telnet negotiation, simulation clock,
rate limiter, stuck detection, session scheduler, prompt builder,
terminal buffer) as executable Lean definitions, and the theorems at the
end of the file settle the specification's claims about them.

JavaScript-specific semantics (string trimming, `parseInt`, UTF-16
string length, `Math.round`, 32-bit integer wrap-around) are modelled by
dedicated helper functions so that each embedded definition can be
diffed line by line against its source.
-/

namespace Domuser

/-! ### JavaScript semantic helpers -/

/-- Whitespace characters recognised by JS `\s` / `String.prototype.trim`
(restricted to the ASCII whitespace forms that can occur in this system's
strings). -/
def isJsWs (c : Char) : Bool :=
  c = ' ' ∨ c = '\t' ∨ c = '\n' ∨ c = '\r' ∨ c = '\x0b' ∨ c = '\x0c'

/-- `String.prototype.trim` on a character list. -/
def jsTrimList (s : List Char) : List Char :=
  ((s.dropWhile isJsWs).reverse.dropWhile isJsWs).reverse

/-- `String.prototype.trim`. -/
def jsTrim (s : String) : String :=
  ⟨jsTrimList s.data⟩

/-- Accumulate a decimal digit run into a natural number. -/
def digitsToNat (acc : ℕ) : List Char → ℕ
  | [] => acc
  | c :: rest => digitsToNat (acc * 10 + (c.toNat - 48)) rest

/-- JS `parseInt(s, 10)`: skip leading whitespace, optional sign, then the
maximal run of decimal digits; `none` models `NaN` (no digits). -/
def jsParseInt10 (s : String) : Option ℤ :=
  let cs := s.data.dropWhile isJsWs
  let signed : ℤ × List Char :=
    match cs with
    | '-' :: r => (-1, r)
    | '+' :: r => (1, r)
    | r => (1, r)
  let ds := signed.2.takeWhile Char.isDigit
  if ds.isEmpty then none
  else some (signed.1 * (digitsToNat 0 ds : ℤ))

/-- JS `String.prototype.length` counts UTF-16 code units: astral-plane
code points count twice. -/
def utf16Len (s : String) : ℕ :=
  (s.data.map (fun c => if c.toNat < 0x10000 then 1 else 2)).sum

/-- ASCII-only uppercase, the canonicalisation a non-unicode
case-insensitive JS regex applies to ASCII pattern letters. -/
def asciiUpper (c : Char) : Char :=
  if 'a' ≤ c ∧ c ≤ 'z' then Char.ofNat (c.toNat - 32) else c

/-- ASCII-only lowercase (JS `toLowerCase` restricted to the ASCII range;
characters without an ASCII case mapping are left unchanged). -/
def asciiLower (c : Char) : Char :=
  if 'A' ≤ c ∧ c ≤ 'Z' then Char.ofNat (c.toNat + 32) else c

/-- Lowercase a whole string, ASCII-only. -/
def jsToLower (s : String) : String :=
  ⟨s.data.map asciiLower⟩

/-! ### Action parser (`src/agent/parser.ts`, concatenated into
`src/console.ts` lines 199-266) -/

/-- The seven action prefixes of `parser.ts`. -/
inductive ActionType
  | THINKING | LINE | TYPE | KEY | WAIT | MEMORY | DISCONNECT
deriving DecidableEq, Repr

/-- `interface Action` from `parser.ts`. -/
structure Action where
  type : ActionType
  value : String
deriving DecidableEq, Repr

/-- `VALID_KEYS` from `parser.ts` (the uppercase entries are kept even
though the lowercasing step makes them unreachable, to mirror the source). -/
def VALID_KEYS : List String :=
  ["enter", "esc", "space", "y", "n", "Y", "N", "backspace", "tab"]

/-- The regex alternation `THINKING|LINE|TYPE|KEY|WAIT|MEMORY|DISCONNECT`
paired with the parsed action type, in source order. -/
def actionKeywords : List (String × ActionType) :=
  [("THINKING", .THINKING), ("LINE", .LINE), ("TYPE", .TYPE), ("KEY", .KEY),
   ("WAIT", .WAIT), ("MEMORY", .MEMORY), ("DISCONNECT", .DISCONNECT)]

/-- Match `^(THINKING|LINE|TYPE|KEY|WAIT|MEMORY|DISCONNECT):\s*(.*)` case-
insensitively against an (already trimmed) line; returns the action type
and the capture `match[2]` (the rest after the colon and whitespace). -/
def matchActionLine (trimmed : List Char) : Option (ActionType × String) :=
  actionKeywords.findSome? fun kt =>
    let kwc := kt.1.data
    if (trimmed.take kwc.length).map asciiUpper = kwc ∧
        trimmed.get? kwc.length = some ':' then
      some (kt.2, ⟨(trimmed.drop (kwc.length + 1)).dropWhile isJsWs⟩)
    else none

/-- One iteration of the `for (const line of lines)` loop in
`parseActions`: `none` when the line is skipped (blank, unmatched,
or an invalid `KEY`). -/
def parseLine (line : String) : Option Action :=
  if (jsTrimList line.data).isEmpty then none
  else
    match matchActionLine (jsTrimList line.data) with
    | none => none
    | some (ty, value) =>
      match ty with
      | .KEY =>
        -- const key = value.trim().toLowerCase();
        if VALID_KEYS.contains (jsToLower (jsTrim value)) ∨
            utf16Len (jsToLower (jsTrim value)) = 1 then
          some ⟨.KEY, value⟩
        else none
      | .WAIT =>
        -- const ms = parseInt(value.trim(), 10);
        match jsParseInt10 (jsTrim value) with
        | none =>
          -- isNaN(ms): push String(Math.min(Math.max(0, ms || 1000), 30000))
          some ⟨.WAIT, toString (min (max 0 (1000 : ℤ)) 30000)⟩
        | some ms =>
          if ms < 0 ∨ ms > 30000 then
            -- out of range (ms ≠ 0 here, so `ms || 1000` is `ms`)
            some ⟨.WAIT, toString (min (max 0 ms) 30000)⟩
          else
            some ⟨.WAIT, value⟩
      | _ => some ⟨ty, value⟩

/-- `response.split("\n")` on a character list: every `\n` separates two
segments, so leading, trailing and repeated newlines yield empty
segments, exactly as in JS. -/
def splitNl : List Char → List (List Char)
  | [] => [[]]
  | c :: rest =>
    let r := splitNl rest
    if c = '\n' then [] :: r else (c :: r.headI) :: r.tail

/-- `parseActions` from `parser.ts`: split on newlines, parse each line,
and fall back to a synthetic `THINKING` + `WAIT` pair when a non-empty
response produced no actions. -/
def parseActions (response : String) : List Action :=
  let acts := (splitNl response.data).filterMap (fun cs => parseLine ⟨cs⟩)
  if acts.isEmpty ∧ (jsTrim response).length > 0 then
    [⟨.THINKING, "Could not determine what to do"⟩, ⟨.WAIT, "2000"⟩]
  else acts

/-! ### Action executor wait handling (`src/agent/loop.ts` lines 259-264) -/

/-- The millisecond duration the executor sleeps for a `WAIT` action:
`const ms = parseInt(action.value.trim(), 10) || 1000;`
(`NaN` and `0` are falsy, so both fall back to 1000). -/
def executedWaitMs (value : String) : ℤ :=
  match jsParseInt10 (jsTrim value) with
  | none => 1000
  | some z => if z = 0 then 1000 else z

/-! ### Telnet negotiation (`src/connection/telnet.ts` lines 127-183) -/

/-- `findSE(data, start)` relative to the start of the list: the index of
the first `IAC SE` pair, scanning while `i < data.length - 1`. -/
def findSEIdx : List ℕ → Option ℕ
  | [] => none
  | [_] => none
  | a :: b :: rest =>
    if a = 0xff ∧ b = 0xf0 then some 0
    else (findSEIdx (b :: rest)).map (· + 1)

/-- The four negotiation commands `DO / DONT / WILL / WONT`. -/
def isNegCmd (c : ℕ) : Bool :=
  c = 0xfd ∨ c = 0xfe ∨ c = 0xfb ∨ c = 0xfc

/-- `handleTelnetNegotiation`: the data bytes forwarded upward for one
input chunk. Replies written back to the socket are side effects ignored
here; `break` on a truncated sequence returns what was output so far. -/
def handleTelnetNegotiation : List ℕ → List ℕ
  | [] => []
  | b :: rest =>
    if b = 0xff then
      match rest with
      | [] => []                   -- i + 1 >= data.length: break
      | c :: rest2 =>
        if c = 0xff then           -- double IAC = literal 0xFF
          0xff :: handleTelnetNegotiation rest2
        else if isNegCmd c then
          match rest2 with
          | [] => []               -- i + 2 >= data.length: break
          | _ :: rest3 => handleTelnetNegotiation rest3
        else if c = 0xfa then      -- subnegotiation
          match findSEIdx rest2 with
          | none => []             -- no IAC SE: break
          | some k => handleTelnetNegotiation (rest2.drop (k + 2))
        else
          handleTelnetNegotiation rest2   -- unknown command, skip 2
    else
      b :: handleTelnetNegotiation rest
termination_by l => l.length
decreasing_by
  all_goals simp_all [List.length_drop]
  all_goals omega

/-- A sender-side encoder that escapes each literal `0xFF` as a doubled
`IAC`, used to state the transparency round trip. -/
def escapeIAC : List ℕ → List ℕ
  | [] => []
  | b :: rest =>
    if b = 0xff then 0xff :: 0xff :: escapeIAC rest else b :: escapeIAC rest

/-! ### Simulation clock (`src/orchestrate/sim-clock.ts`) -/

/-- The mutable fields of `SimClock` relevant to time queries. Times are
milliseconds; speeds are rationals (JS numbers). -/
structure ClockState where
  baseSimTime : ℚ
  baseRealTime : ℚ
  configuredSpeed : ℚ
  activeSessions : ℕ
deriving Repr, DecidableEq

/-- `new SimClock(simStart, speed)` at wall-clock instant `wall`. -/
def clockInit (simStart wall speed : ℚ) : ClockState :=
  ⟨simStart, wall, speed, 0⟩

/-- `effectiveSpeed()`: 1 while sessions are active, else configured. -/
def clockEffectiveSpeed (s : ClockState) : ℚ :=
  if s.activeSessions > 0 then 1 else s.configuredSpeed

/-- `now()` evaluated at wall-clock instant `wall` (models `Date.now()`). -/
def clockNow (s : ClockState) (wall : ℚ) : ℚ :=
  if clockEffectiveSpeed s = 0 then s.baseSimTime
  else s.baseSimTime + (wall - s.baseRealTime) * clockEffectiveSpeed s

/-- `reanchor()`: snapshot `now()` and the wall clock into the bases. -/
def clockReanchor (s : ClockState) (wall : ℚ) : ClockState :=
  { s with baseSimTime := clockNow s wall, baseRealTime := wall }

/-- `setSpeed(speed)`: reanchor, then store the configured speed. -/
def clockSetSpeed (s : ClockState) (wall speed : ℚ) : ClockState :=
  { clockReanchor s wall with configuredSpeed := speed }

/-- `sessionStarted()`: reanchor when crossing 0 → 1 active sessions,
then increment. -/
def clockSessionStarted (s : ClockState) (wall : ℚ) : ClockState :=
  let s1 := if s.activeSessions = 0 then clockReanchor s wall else s
  { s1 with activeSessions := s1.activeSessions + 1 }

/-- `sessionEnded()`: decrement with floor 0 FIRST, then reanchor if the
count reached 0 (note the order relative to `sessionStarted`). -/
def clockSessionEnded (s : ClockState) (wall : ℚ) : ClockState :=
  let s1 := { s with activeSessions := s.activeSessions - 1 }
  if s1.activeSessions = 0 then clockReanchor s1 wall else s1

/-! ### Rate limiter (`src/llm/rate-limiter.ts`) -/

/-- The counting state of `RateLimiter`: available tokens and the number
of queued `acquire` resolvers (their identities are irrelevant to token
accounting). -/
structure RLState where
  tokens : ℕ
  queue : ℕ
deriving Repr, DecidableEq

/-- `new RateLimiter(rpm)` starts with a full bucket and no waiters. -/
def rlInit (rpm : ℕ) : RLState := ⟨rpm, 0⟩

/-- The two externally visible events: an `acquire()` call and a firing of
the periodic refill timer. -/
inductive RLEvent
  | acquire | tick
deriving DecidableEq, Repr

/-- One event step. Returns the new state and the number of tokens
released to `acquire()` callers by this event: an `acquire` with tokens
available releases immediately; a refill below the cap increments the
bucket and `drain()` then releases `min(tokens, queue)` waiters. -/
def rlStep (maxTokens : ℕ) (s : RLState) : RLEvent → RLState × ℕ
  | .acquire =>
    if s.tokens > 0 then (⟨s.tokens - 1, s.queue⟩, 1)
    else (⟨s.tokens, s.queue + 1⟩, 0)
  | .tick =>
    if s.tokens < maxTokens then
      let t := s.tokens + 1
      let d := min t s.queue
      (⟨t - d, s.queue - d⟩, d)
    else (s, 0)

/-- Run a timed event trace, ignoring the timestamps. -/
def rlRun (maxTokens : ℕ) : RLState → List (ℕ × RLEvent) → RLState
  | s, [] => s
  | s, te :: rest => rlRun maxTokens (rlStep maxTokens s te.2).1 rest

/-- Total number of tokens released over a trace segment. -/
def rlReleases (maxTokens : ℕ) : RLState → List (ℕ × RLEvent) → ℕ
  | _, [] => 0
  | s, te :: rest =>
    (rlStep maxTokens s te.2).2 + rlReleases maxTokens (rlStep maxTokens s te.2).1 rest

/-- The timestamps of the tick events of a trace, in trace order. -/
def tickTimes (trace : List (ℕ × RLEvent)) : List ℕ :=
  (trace.filter (fun te => te.2 = RLEvent.tick)).map Prod.fst

/-- Well-formed execution trace of a limiter whose refill interval is
`delta` ms: event times are nondecreasing, every tick fires at a positive
multiple of `delta` (the `setInterval(…, delta)` schedule), and tick
times strictly increase (the timer fires once per interval). -/
def rlWf (delta : ℕ) (trace : List (ℕ × RLEvent)) : Prop :=
  (trace.map Prod.fst).Chain' (· ≤ ·) ∧
  (∀ t ∈ tickTimes trace, delta ∣ t ∧ delta ≤ t) ∧
  (tickTimes trace).Pairwise (· < ·)

/-- Execution refuting the rpm + 1 window bound at rpm = 3
(refill interval 20000 ms): the full initial bucket is drained at t = 0
and each refill is consumed immediately. -/
def rlCexTrace : List (ℕ × RLEvent) :=
  [(0, .acquire), (0, .acquire), (0, .acquire),
   (20000, .tick), (20000, .acquire),
   (40000, .tick), (40000, .acquire)]

/-! ### Stuck detection (`src/agent/loop.ts` lines 161-177, 328-336) -/

/-- UTF-16 code units of one character (`charCodeAt` enumerates these). -/
def utf16Units (c : Char) : List ℕ :=
  if c.toNat < 0x10000 then [c.toNat]
  else [0xd800 + (c.toNat - 0x10000) / 0x400, 0xdc00 + (c.toNat - 0x10000) % 0x400]

/-- ToInt32: wrap an integer into the signed 32-bit range. -/
def toInt32 (z : ℤ) : ℤ := (z + 2 ^ 31) % 2 ^ 32 - 2 ^ 31

/-- One iteration of `simpleHash`: `hash = ((hash << 5) - hash) + char;
hash |= 0` (the shift is itself a 32-bit operation). -/
def simpleHashStep (h : ℤ) (c : ℕ) : ℤ :=
  toInt32 (toInt32 (h * 32) - h + c)

/-- `simpleHash(s)` over the UTF-16 code units of `s` (the `String(hash)`
conversion is dropped: decimal rendering is injective, so comparing the
integers is equivalent to comparing the stored strings). -/
def simpleHash (s : String) : ℤ :=
  ((s.data.map utf16Units).flatten).foldl simpleHashStep 0

/-- The stuck-detection fields of `AgentLoop`. `lastScreenHash` starts as
the empty string, which is not the decimal rendering of any hash, so it
is modelled as `none`. -/
structure StuckState where
  lastScreenHash : Option ℤ
  stuckCounter : ℕ
deriving Repr, DecidableEq

/-- Fresh `AgentLoop`: `stuckCounter = 0`, `lastScreenHash = ""`. -/
def stuckInit : StuckState := ⟨none, 0⟩

/-- Observable effects of the stuck-detection segment of one `tick`. -/
inductive TickEffect
  | sendKey (k : String)
  | sleepMs (ms : ℕ)
  | llmTurn       -- the tick falls through to build a message and call the LLM
deriving Repr, DecidableEq

/-- The stuck-detection segment of `AgentLoop.tick` for a tick whose
screen is non-empty and not a More-prompt screen (lines 161-177): hash
the trimmed screen, compare with the previous tick's hash, and on the
third consecutive match send `esc`, sleep 500 ms, send `enter`, reset the
counter and return without reaching the LLM. -/
def stuckStep (st : StuckState) (screenText : String) : StuckState × List TickEffect :=
  let screenHash := simpleHash (jsTrim screenText)
  if st.lastScreenHash = some screenHash then
    let c := st.stuckCounter + 1
    if c ≥ 3 then
      ({ st with stuckCounter := 0 },
       [.sendKey "esc", .sleepMs 500, .sendKey "enter"])
    else
      ({ st with stuckCounter := c }, [.llmTurn])
  else
    ({ lastScreenHash := some screenHash, stuckCounter := 0 }, [.llmTurn])

/-- State and last-tick effects after `n` consecutive ticks that each
resolve with the same screen, starting from a fresh loop. -/
def stuckTicks (screen : String) : ℕ → StuckState × List TickEffect
  | 0 => (stuckInit, [])
  | n + 1 => stuckStep (stuckTicks screen n).1 screen

/-! ### Session scheduler (`src/unnamed/part_007`, `SessionScheduler`) -/

/-- `Schedule` after zod validation (`src/persona/types.ts`): hours are
numbers in `[0, 23]`, `sessions_per_day ∈ [1, 10]`,
`min_gap_minutes ≥ 5`, `jitter_minutes ≥ 0`. -/
structure ScheduleW where
  active_hours : List (ℚ × ℚ × ℚ)   -- (start, end, weight)
  sessions_per_day : ℕ
  min_gap_minutes : ℚ
  jitter_minutes : ℚ
deriving Repr, DecidableEq

/-- `Math.round`: half-up rounding toward +∞. -/
def jsRound (q : ℚ) : ℤ := ⌊q + 1 / 2⌋

/-- Expand `active_hours` into minute windows, adding a day for
wrap-around (`endMin ≤ startMin`). -/
def expandWindows (ahs : List (ℚ × ℚ × ℚ)) : List (ℚ × ℚ × ℚ) :=
  ahs.map fun ah =>
    let startMin := ah.1 * 60
    let endMin0 := ah.2.1 * 60
    let endMin := if endMin0 ≤ startMin then endMin0 + 24 * 60 else endMin0
    (startMin, endMin, ah.2.2)

/-- Place `count` sessions inside one window at
`start + gap*(i+1) + jitter`, clamped to the window; the i-th session
consumes the i-th `Math.random()` draw. -/
def windowSlots (jitterM startMin endMin : ℚ) (count : ℕ) (rands : List ℚ) : List ℚ :=
  let windowMinutes := endMin - startMin
  let gap := windowMinutes / (count + 1)
  (List.range count).map fun (i : ℕ) =>
    let minuteOfDay := startMin + gap * ((i : ℚ) + 1)
    let jitter := (rands.getD i 0 - 1 / 2) * 2 * jitterM
    max startMin (min endMin (minuteOfDay + jitter))

/-- The window loop of `generatePersonaSessions`: allocate
`round(sessions_per_day × share)` to each window, capped at the sessions
remaining, giving any leftover to the last window. -/
def genSlotsGo (spd : ℕ) (totalW jitterM : ℚ) :
    List (ℚ × ℚ × ℚ) → ℕ → List ℚ → List ℚ
  | [], _, _ => []
  | w :: ws, remaining, rands =>
    let windowMinutes := w.2.1 - w.1
    let share := windowMinutes * w.2.2 / totalW
    let count0 : ℤ := min (jsRound ((spd : ℚ) * share)) (remaining : ℤ)
    let count : ℤ :=
      if count0 = 0 ∧ remaining > 0 ∧ ws = [] then (remaining : ℤ) else count0
    let cnt : ℕ := count.toNat
    windowSlots jitterM w.1 w.2.1 cnt (rands.take cnt) ++
      genSlotsGo spd totalW jitterM ws (remaining - cnt) (rands.drop cnt)

/-- `sessionSlots` of `generatePersonaSessions`, with the stream of
`Math.random()` draws passed explicitly. -/
def generatePersonaSlots (sched : ScheduleW) (rands : List ℚ) : List ℚ :=
  let windows := expandWindows sched.active_hours
  let totalW := (windows.map (fun w => (w.2.1 - w.1) * w.2.2)).sum
  if totalW = 0 then []
  else genSlotsGo sched.sessions_per_day totalW sched.jitter_minutes
    windows sched.sessions_per_day rands

/-- Ascending insertion into a sorted list. -/
def insertAsc {α : Type} [LinearOrder α] (x : α) : List α → List α
  | [] => [x]
  | y :: ys => if x ≤ y then x :: y :: ys else y :: insertAsc x ys

/-- `Array.prototype.sort((a, b) => a - b)`: sort ascending. -/
def sortAsc {α : Type} [LinearOrder α] (l : List α) : List α :=
  l.foldr insertAsc []

/-- The min-gap enforcement walk, carrying the last element appended to
`filtered` (`filtered[filtered.length - 1]`). -/
def enforceGapGo (g : ℚ) : Option ℚ → List ℚ → List ℚ
  | _, [] => []
  | none, s :: rest => s :: enforceGapGo g (some s) rest
  | some lastSlot, s :: rest =>
    if s - lastSlot ≥ g then s :: enforceGapGo g (some s) rest
    else (lastSlot + g) :: enforceGapGo g (some (lastSlot + g)) rest

/-- `filtered` of `generatePersonaSessions`. -/
def enforceGap (g : ℚ) (slots : List ℚ) : List ℚ := enforceGapGo g none slots

/-- Convert a slot (fractional minute of day, possibly ≥ 1440) to the
minute-of-plan of the constructed `Date`:
`setHours(floor(m/60) % 24, floor(m % 60))` on `day`, plus one extra day
when `m ≥ 1440`. -/
def toPlanMinute (m : ℚ) : ℤ :=
  let hours := ⌊m / 60⌋ % 24
  let minutes := ⌊m - 60 * ⌊m / 60⌋⌋
  let base := hours * 60 + minutes
  if 24 * 60 ≤ m then 1440 + base else base

/-- A persona's `scheduled_sim_time`s, as minutes from the plan day's
midnight, in the order `generatePersonaSessions` emits them. -/
def personaPlanMinutes (sched : ScheduleW) (rands : List ℚ) : List ℤ :=
  (enforceGap sched.min_gap_minutes
    (sortAsc (generatePersonaSlots sched rands))).map toPlanMinute

/-- Counterexample schedule for the scheduler-gap claim: one 08:00-23:00
window, 3 sessions, 900-minute minimum gap, 1000-minute jitter. -/
def schedCex : ScheduleW :=
  ⟨[(8, 23, 1)], 3, 900, 1000⟩

/-- A witness schedule on which the gap property does hold. -/
def schedOk : ScheduleW :=
  ⟨[(8, 10, 1)], 2, 30, 0⟩

/-! ### System prompt, known-users section (`src/agent/prompt.ts` lines 73-91) -/

/-- One relationship record (`relationships.users[handle]`). -/
structure Relationship where
  role : String
  trust : ℤ
  respect : ℤ
  notes : String
  recent_interactions : List (String × String)   -- (date, summary)
deriving Repr, DecidableEq

/-- `slice(-3)`: the last three interactions. -/
def lastThree {α : Type} (l : List α) : List α := l.drop (l.length - 3)

/-- One `- [date] summary` line. -/
def interactionLine (it : String × String) : String :=
  "  - [" ++ it.1 ++ "] " ++ it.2 ++ "\n"

/-- The text appended for one `[handle, rel]` entry of
`Object.entries(relationships.users)`. -/
def relationshipBlock (entry : String × Relationship) : String :=
  "### " ++ entry.1 ++ "\n- Role: " ++ entry.2.role ++ " | Trust: " ++
    toString entry.2.trust ++ "/10 | Respect: " ++ toString entry.2.respect ++
    "/10\n- Notes: " ++ entry.2.notes ++ "\n" ++
  (if entry.2.recent_interactions.length > 0 then
    "- Recent interactions:\n" ++
      String.join ((lastThree entry.2.recent_interactions).map interactionLine)
  else "")

/-- The known-users section of the system prompt. The entry list stands
for `Object.entries(relationships.users)`, whose order for string keys is
the map's insertion order; the code iterates it as-is. -/
def knownUsersSection (users : List (String × Relationship)) : String :=
  if users.length > 0 then
    users.foldl (fun acc e => acc ++ relationshipBlock e)
      "\n## People you know on this BBS\n"
  else ""

/-- The order in which handles are listed by the section: the enumeration
order of the entries, unchanged. -/
def promptHandleOrder (users : List (String × Relationship)) : List String :=
  users.map Prod.fst

/-- Lexicographic comparison of character lists by code point (for the
ASCII handles involved this agrees with any standard string order). -/
def lexLeB : List Char → List Char → Bool
  | [], _ => true
  | _ :: _, [] => false
  | a :: as, b :: bs =>
    if a.toNat < b.toNat then true
    else if b.toNat < a.toNat then false
    else lexLeB as bs

/-- String order used to state "sorted by handle". -/
def handleLe (a b : String) : Prop := lexLeB a.data b.data = true

instance (a b : String) : Decidable (handleLe a b) :=
  inferInstanceAs (Decidable (lexLeB a.data b.data = true))

/-- The concatenation of the per-user blocks, in entry order. -/
def blocksConcat : List (String × Relationship) → String
  | [] => ""
  | e :: t => relationshipBlock e ++ blocksConcat t

/-- Two known users stored in non-alphabetical insertion order. -/
def usersCex : List (String × Relationship) :=
  [("zeke", ⟨"ally", 7, 6, "met in chat", []⟩),
   ("alice", ⟨"rival", 2, 5, "flame war", []⟩)]

/-! ### Terminal buffer (`src/unnamed/part_003`, `TerminalBuffer`) -/

/-- The mutable fields of `TerminalBuffer`. The virtual terminal is
abstracted to its rendered screen string; `idleTimer` records the armed
timeout (none = no timer); `waiter` is whether `resolveIdle` is set. -/
structure TBState where
  screen : String
  dirty : Bool
  idleTimer : Option ℕ
  waiter : Bool
  lastScreen : String
  screenHistory : List String
deriving Repr, DecidableEq

/-- History bound (`maxHistory`). -/
def TB_MAX_HISTORY : ℕ := 40

/-- `snapshot()`: return the screen, clear `dirty`, and push non-blank
changed screens onto the bounded history. -/
def tbSnapshot (s : TBState) : TBState × String :=
  let screen := s.screen
  let s1 := { s with dirty := false }
  if (jsTrim screen).length > 0 ∧ screen ≠ s1.lastScreen then
    let h0 := s1.screenHistory ++ [screen]
    let h := if h0.length > TB_MAX_HISTORY then h0.tail else h0
    ({ s1 with lastScreen := screen, screenHistory := h }, screen)
  else (s1, screen)

/-- `flushToWaiter()`: resolve a pending waiter with a fresh snapshot. -/
def tbFlushToWaiter (s : TBState) : TBState × Option String :=
  if s.waiter then
    let s1 := { s with waiter := false, idleTimer := none }
    let p := tbSnapshot s1
    (p.1, some p.2)
  else (s, none)

/-- `feed(data)` after the virtual terminal has rendered `newScreen`:
mark dirty, cancel any pending idle timer, and re-arm it (300 ms grace
when a prompt pattern sits at the tail, else the idle timeout) only while
a waiter is pending. -/
def tbFeed (s : TBState) (newScreen : String) (promptAtTail : Bool)
    (idleTimeoutMs : ℕ) : TBState :=
  let s1 := { s with screen := newScreen, dirty := true, idleTimer := none }
  if s1.waiter ∧ promptAtTail then { s1 with idleTimer := some 300 }
  else if s1.waiter then { s1 with idleTimer := some idleTimeoutMs }
  else s1

/-- `reset()`: clear the dirty flag, last screen, history and timer,
replace the terminal with a fresh blank one, and resolve any pending
waiter with the empty string (the literal `""`, not a snapshot). -/
def tbReset (s : TBState) : TBState × Option String :=
  let resolved := if s.waiter then some "" else none
  (⟨"", false, none, false, "", []⟩, resolved)

/-! ### Concrete inputs used by the scenario claims -/

/-- The seven-line response text of scenario E2. -/
def e2Response : String :=
  "THINKING: looking at a menu\nLINE: Hello world\nKEY: enter\nWAIT: 500\nWAIT: 99999\nKEY: ⌘\nMEMORY: noted"

/-- The six actions the specification claims E2 produces. -/
def e2ClaimedActions : List Action :=
  [⟨.THINKING, "looking at a menu"⟩, ⟨.LINE, "Hello world"⟩, ⟨.KEY, "enter"⟩,
   ⟨.WAIT, "500"⟩, ⟨.WAIT, "30000"⟩, ⟨.MEMORY, "noted"⟩]

/-- The seven actions the parser actually produces on E2: `KEY: ⌘` is
kept, because `"⌘"` is a single UTF-16 code unit (U+2318), so its JS
string length is 1. -/
def e2ActualActions : List Action :=
  [⟨.THINKING, "looking at a menu"⟩, ⟨.LINE, "Hello world"⟩, ⟨.KEY, "enter"⟩,
   ⟨.WAIT, "500"⟩, ⟨.WAIT, "30000"⟩, ⟨.KEY, "⌘"⟩, ⟨.MEMORY, "noted"⟩]

/-! ## Helper lemmas -/

/-- Strengthen the relation of a `Chain'` using membership. -/
theorem chain'_imp_of_mem {α : Type} {R S : α → α → Prop} :
    ∀ (l : List α), (∀ a ∈ l, ∀ b ∈ l, R a b → S a b) → l.Chain' R → l.Chain' S := by
  intro l
  induction l with
  | nil => intro _ _; simp
  | cons a t ih =>
    intro h hc
    cases t with
    | nil => simp
    | cons b t2 =>
      rw [List.chain'_cons] at hc ⊢
      refine ⟨h a (by simp) b (by simp) hc.1, ih ?_ hc.2⟩
      intro x hx y hy hr
      exact h x (List.mem_cons_of_mem _ hx) y (List.mem_cons_of_mem _ hy) hr

/-- A strictly increasing list of naturals confined to `[a, a + n)` has
at most `n` elements. -/
theorem pairwise_lt_length_le :
    ∀ (l : List ℕ) (a n : ℕ), l.Pairwise (· < ·) →
      (∀ x ∈ l, a ≤ x ∧ x < a + n) → l.length ≤ n := by
  intro l
  induction l with
  | nil => intro a n _ _; simp
  | cons x xs ih =>
    intro a n hp hb
    have hx := hb x (List.mem_cons_self x xs)
    have hcons := List.pairwise_cons.mp hp
    have hxs : ∀ y ∈ xs, (x + 1) ≤ y ∧ y < (x + 1) + (a + n - (x + 1)) := by
      intro y hy
      have h1 := hcons.1 y hy
      have h2 := hb y (List.mem_cons_of_mem _ hy)
      omega
    have := ih (x + 1) (a + n - (x + 1)) hcons.2 hxs
    simp only [List.length_cons]
    omega

/-- A strictly increasing list of multiples of `delta` inside a half-open
window of length `rpm * delta` has at most `rpm` elements. -/
theorem mult_window_length_le (l : List ℕ) (delta rpm lo : ℕ) (hδ : 0 < delta)
    (hdvd : ∀ t ∈ l, delta ∣ t) (hp : l.Pairwise (· < ·))
    (hb : ∀ t ∈ l, lo ≤ t ∧ t < lo + rpm * delta) : l.length ≤ rpm := by
  cases l with
  | nil => simp
  | cons t0 rest =>
    obtain ⟨k0, hk0⟩ := hdvd t0 (List.mem_cons_self _ _)
    have hmap : ((t0 :: rest).map (· / delta)).Pairwise (· < ·) := by
      rw [List.pairwise_map]
      refine hp.imp_of_mem ?_
      intro s t hs ht hlt
      obtain ⟨ks, hks⟩ := hdvd s hs
      obtain ⟨kt, hkt⟩ := hdvd t ht
      subst hks hkt
      rw [Nat.mul_div_cancel_left ks hδ, Nat.mul_div_cancel_left kt hδ]
      exact Nat.lt_of_mul_lt_mul_left hlt
    have hlo : lo ≤ delta * k0 := hk0 ▸ (hb t0 (List.mem_cons_self _ _)).1
    have hbnd : ∀ k ∈ (t0 :: rest).map (· / delta), k0 ≤ k ∧ k < k0 + rpm := by
      intro k hk
      obtain ⟨t, ht, rfl⟩ := List.mem_map.mp hk
      obtain ⟨kt, hkt⟩ := hdvd t ht
      have hb' := hb t ht
      subst hkt
      rw [Nat.mul_div_cancel_left kt hδ]
      constructor
      · rcases List.mem_cons.mp ht with heq | hmem
        · have : delta * kt = delta * k0 := heq.trans hk0
          exact le_of_eq (Nat.eq_of_mul_eq_mul_left hδ this).symm
        · have h1 : t0 < delta * kt := (List.pairwise_cons.mp hp).1 _ hmem
          have h2 : delta * k0 < delta * kt := hk0 ▸ h1
          exact le_of_lt (Nat.lt_of_mul_lt_mul_left h2)
      · have h1 : delta * kt < lo + rpm * delta := hb'.2
        have h2 : lo + rpm * delta ≤ delta * k0 + rpm * delta :=
          Nat.add_le_add_right hlo _
        have h3 : delta * kt < delta * (k0 + rpm) := by
          calc delta * kt < lo + rpm * delta := h1
            _ ≤ delta * k0 + rpm * delta := h2
            _ = delta * (k0 + rpm) := by ring
        exact Nat.lt_of_mul_lt_mul_left h3
    have := pairwise_lt_length_le ((t0 :: rest).map (· / delta)) k0 rpm hmap hbnd
    simpa using this

/-- One limiter step never increases the stock beyond the cap. -/
theorem rlStep_tokens_le (m : ℕ) (s : RLState) (e : RLEvent) (h : s.tokens ≤ m) :
    (rlStep m s e).1.tokens ≤ m := by
  cases e <;> simp only [rlStep] <;> split <;> simp <;> omega

/-- Running any trace preserves the token cap. -/
theorem rlRun_tokens_le (m : ℕ) :
    ∀ (l : List (ℕ × RLEvent)) (s : RLState), s.tokens ≤ m → (rlRun m s l).tokens ≤ m := by
  intro l
  induction l with
  | nil => intro s h; simpa [rlRun] using h
  | cons te rest ih =>
    intro s h
    exact ih _ (rlStep_tokens_le m s te.2 h)

/-- Token conservation: each step releases at most what it holds plus the
single token a tick can add. -/
theorem rlStep_conserve (m : ℕ) (s : RLState) (e : RLEvent) :
    (rlStep m s e).2 + (rlStep m s e).1.tokens ≤
      s.tokens + (if e = RLEvent.tick then 1 else 0) := by
  cases e <;> simp only [rlStep] <;> split <;> simp <;> omega

/-- `tickTimes` distributes over list append. -/
theorem tickTimes_append (l1 l2 : List (ℕ × RLEvent)) :
    tickTimes (l1 ++ l2) = tickTimes l1 ++ tickTimes l2 := by
  simp [tickTimes, List.filter_append]

/-- Releases over a segment are bounded by the starting stock plus the
number of ticks in the segment. -/
theorem rlReleases_le (m : ℕ) :
    ∀ (l : List (ℕ × RLEvent)) (s : RLState),
      rlReleases m s l ≤ s.tokens + (tickTimes l).length := by
  intro l
  induction l with
  | nil => intro s; simp [rlReleases]
  | cons te rest ih =>
    intro s
    have hc := rlStep_conserve m s te.2
    have hrec := ih (rlStep m s te.2).1
    have hlen : (tickTimes (te :: rest)).length =
        (if te.2 = RLEvent.tick then 1 else 0) + (tickTimes rest).length := by
      simp only [tickTimes, List.filter_cons]
      split <;> simp_all <;> omega
    simp only [rlReleases]
    omega

/-- If each element of a sorted list is at least the head bound, ascending
insertion is `cons`. -/
theorem insertAsc_eq_cons {α : Type} [LinearOrder α] (x : α) (l : List α)
    (h : ∀ y ∈ l.head?, x ≤ y) : insertAsc x l = x :: l := by
  cases l with
  | nil => rfl
  | cons y t =>
    have hxy : x ≤ y := h y rfl
    simp [insertAsc, hxy]

/-- Insertion sort leaves an already-sorted list unchanged. -/
theorem sortAsc_eq_self {α : Type} [LinearOrder α] :
    ∀ (l : List α), l.Chain' (· ≤ ·) → sortAsc l = l := by
  intro l
  induction l with
  | nil => intro _; rfl
  | cons a t ih =>
    intro hc
    have hh := (List.chain'_cons'.mp hc).1
    have ht := (List.chain'_cons'.mp hc).2
    show insertAsc a (sortAsc t) = a :: t
    rw [ih ht]
    exact insertAsc_eq_cons a t hh

/-- Head of the enforcement walk started from `some v` is at least
`v + g`. -/
theorem enforceGapGo_head (g v : ℚ) (l : List ℚ) :
    ∀ x ∈ (enforceGapGo g (some v) l).head?, g ≤ x - v := by
  cases l with
  | nil => simp [enforceGapGo]
  | cons s rest =>
    simp only [enforceGapGo]
    split
    · intro x hx
      simp only [List.head?_cons, Option.mem_some_iff] at hx
      subst hx; linarith [show s - v ≥ g from by assumption]
    · intro x hx
      simp only [List.head?_cons, Option.mem_some_iff] at hx
      subst hx; linarith

/-- The enforcement walk always emits consecutive gaps of at least `g`,
whatever the input slots are. -/
theorem enforceGapGo_chain (g : ℚ) :
    ∀ (l : List ℚ) (o : Option ℚ),
      (enforceGapGo g o l).Chain' (fun a b => g ≤ b - a) := by
  intro l
  induction l with
  | nil => intro o; cases o <;> simp [enforceGapGo]
  | cons s rest ih =>
    intro o
    cases o with
    | none =>
      simp only [enforceGapGo]
      exact List.chain'_cons'.mpr ⟨enforceGapGo_head g s rest, ih (some s)⟩
    | some v =>
      simp only [enforceGapGo]
      split
      · exact List.chain'_cons'.mpr ⟨enforceGapGo_head g s rest, ih (some s)⟩
      · exact List.chain'_cons'.mpr ⟨enforceGapGo_head g (v + g) rest, ih (some (v + g))⟩

/-- Below the double-wrap threshold the `Date` conversion is plain
flooring. -/
theorem toPlanMinute_eq_floor (q : ℚ) (h0 : 0 ≤ q) (h : q < 2880) :
    toPlanMinute q = ⌊q⌋ := by
  have hb : (0 : ℚ) < 60 := by norm_num
  have hnn : 0 ≤ q - ⌊q / 60⌋ * 60 := Int.sub_floor_div_mul_nonneg q hb
  have hlt60 : q - ⌊q / 60⌋ * 60 < 60 := Int.sub_floor_div_mul_lt q hb
  have hQ0 : 0 ≤ ⌊q / 60⌋ := Int.floor_nonneg.mpr (by positivity)
  have hsplit : ⌊q - 60 * (⌊q / 60⌋ : ℚ)⌋ = ⌊q⌋ - 60 * ⌊q / 60⌋ := by
    rw [show (60 : ℚ) * (⌊q / 60⌋ : ℚ) = ((60 * ⌊q / 60⌋ : ℤ) : ℚ) by push_cast; ring]
    rw [Int.floor_sub_int]
  have hR0 : 0 ≤ ⌊q⌋ - 60 * ⌊q / 60⌋ := by
    rw [← hsplit]
    exact Int.floor_nonneg.mpr (by linarith)
  have hR60 : ⌊q⌋ - 60 * ⌊q / 60⌋ < 60 := by
    rw [← hsplit]
    refine Int.floor_lt.mpr ?_
    push_cast
    linarith
  have hfl0 : 0 ≤ ⌊q⌋ := Int.floor_nonneg.mpr h0
  have hfl : ⌊q⌋ < 2880 := Int.floor_lt.mpr (by exact_mod_cast h)
  have hiff : (24 * 60 : ℚ) ≤ q ↔ (1440 : ℤ) ≤ ⌊q⌋ := by
    rw [show (24 * 60 : ℚ) = ((1440 : ℤ) : ℚ) by norm_num]
    exact (Int.le_floor).symm
  simp only [toPlanMinute, hsplit]
  split
  · rename_i hge
    have h1440 : (1440 : ℤ) ≤ ⌊q⌋ := hiff.mp hge
    omega
  · rename_i hlt
    have h1440 : ⌊q⌋ < 1440 := by
      by_contra hc
      exact hlt (hiff.mpr (by omega))
    omega

/-- An integer gap between rationals survives flooring. -/
theorem floor_gap_mono (g : ℤ) (a b : ℚ) (h : (g : ℚ) ≤ b - a) :
    g ≤ ⌊b⌋ - ⌊a⌋ := by
  have : a + (g : ℚ) ≤ b := by linarith
  have hfl := Int.floor_le_floor this
  rw [Int.floor_add_int] at hfl
  omega

/-- Pull a `foldl` of string appends out as a concatenation of blocks. -/
theorem foldl_append_blocks :
    ∀ (l : List (String × Relationship)) (acc : String),
      l.foldl (fun acc e => acc ++ relationshipBlock e) acc
        = acc ++ blocksConcat l := by
  intro l
  induction l with
  | nil => intro acc; simp [blocksConcat]
  | cons e t ih =>
    intro acc
    simp only [List.foldl_cons, blocksConcat]
    rw [ih, String.append_assoc]

/-! ## Claim theorems -/

set_option maxRecDepth 100000

attribute [local semireducible] Rat.add Rat.mul Rat.sub Rat.inv

/-- C1: the claim states `clock.now()` never goes backward, in particular
across a `sessionEnded()` that brings the active-session count from 1 to
0 at configured speed 0 (turbo). The code decrements the count before
reanchoring, so the reanchor reads `now()` at the already-restored turbo
speed and discards the simulated time accrued during the session: with
`simStart = 1000 ms`, speed 0, a session started at wall 0 and ended at
wall 5000, `now()` reads 6000 during the session and 1000 after it —
time goes backward by 5000 ms. -/
theorem c1_clock_now_goes_backward :
    clockNow (clockSessionStarted (clockInit 1000 0 0) 0) 5000 = 6000 ∧
    clockNow (clockSessionEnded (clockSessionStarted (clockInit 1000 0 0) 0) 5000) 5000 = 1000 ∧
    clockNow (clockSessionEnded (clockSessionStarted (clockInit 1000 0 0) 0) 5000) 5000 <
      clockNow (clockSessionStarted (clockInit 1000 0 0) 0) 5000 := by
  refine ⟨by decide, by decide, by decide⟩

/-- C2 (counterexample): the rolling-window bound `rpm + 1` fails on the
window starting at construction: at `rpm = 3` (refill interval 20000 ms)
the full initial bucket plus the refills at 20000 and 40000 ms allow 5
releases inside `[0, 60000)`, and `5 > 3 + 1`. -/
theorem c2_counterexample :
    ¬ (∀ (rpm delta : ℕ) (trace pre win post : List (ℕ × RLEvent)) (lo : ℕ),
        delta * rpm = 60000 → rlWf delta trace → trace = pre ++ win ++ post →
        (∀ te ∈ win, lo ≤ te.1 ∧ te.1 < lo + 60000) →
        rlReleases rpm (rlRun rpm (rlInit rpm) pre) win ≤ rpm + 1) := by
  intro hclaim
  have hwf : rlWf 20000 rlCexTrace := by
    refine ⟨?_, ?_, ?_⟩
    · simp [rlCexTrace]
    · intro t ht
      simp [tickTimes, rlCexTrace] at ht
      rcases ht with h | h <;> subst h <;> decide
    · simp [tickTimes, rlCexTrace]
  have hwin : ∀ te ∈ rlCexTrace, 0 ≤ te.1 ∧ te.1 < 0 + 60000 := by decide
  have h := hclaim 3 20000 rlCexTrace [] rlCexTrace [] 0 (by norm_num) hwf
    (by simp) hwin
  have h5 : rlReleases 3 (rlRun 3 (rlInit 3) []) rlCexTrace = 5 := by decide
  omega

/-- C2 (amended): over any rolling 60-second window of any well-formed
execution, the number of tokens released to `acquire()` callers is at
most `2 · rpm` — the cap-sized bucket available at the window start plus
one release per refill tick inside the window (at most `rpm` of them,
since ticks sit on distinct multiples of the refill interval
`delta = 60000 / rpm`). -/
theorem c2_window_release_bound
    (rpm delta : ℕ) (trace pre win post : List (ℕ × RLEvent)) (lo : ℕ)
    (hd : delta * rpm = 60000) (hwf : rlWf delta trace)
    (hsplit : trace = pre ++ win ++ post)
    (hwin : ∀ te ∈ win, lo ≤ te.1 ∧ te.1 < lo + 60000) :
    rlReleases rpm (rlRun rpm (rlInit rpm) pre) win ≤ 2 * rpm := by
  have hδ : 0 < delta := by
    rcases Nat.eq_zero_or_pos delta with h | h
    · subst h; simp at hd
    · exact h
  have htok : (rlRun rpm (rlInit rpm) pre).tokens ≤ rpm :=
    rlRun_tokens_le rpm pre (rlInit rpm) (le_refl rpm)
  have hsub : (tickTimes win).Sublist (tickTimes trace) := by
    rw [hsplit, tickTimes_append, tickTimes_append]
    exact (List.sublist_append_right _ _).trans (List.sublist_append_left _ _)
  have hdvd : ∀ t ∈ tickTimes win, delta ∣ t :=
    fun t ht => (hwf.2.1 t (hsub.subset ht)).1
  have hpw : (tickTimes win).Pairwise (· < ·) := hwf.2.2.sublist hsub
  have hbw : ∀ t ∈ tickTimes win, lo ≤ t ∧ t < lo + rpm * delta := by
    intro t ht
    obtain ⟨te, hte, rfl⟩ := List.mem_map.mp ht
    have hmem : te ∈ win := List.mem_of_mem_filter hte
    have := hwin te hmem
    have h60 : rpm * delta = 60000 := by rw [Nat.mul_comm]; exact hd
    omega
  have hticks : (tickTimes win).length ≤ rpm :=
    mult_window_length_le _ delta rpm lo hδ hdvd hpw hbw
  have hrel := rlReleases_le rpm win (rlRun rpm (rlInit rpm) pre)
  omega

/-- C2 witness: the amended bound applied to a one-acquire trace at
`rpm = 1`. -/
theorem c2_window_release_bound_witness :
    rlReleases 1 (rlRun 1 (rlInit 1) []) [(0, RLEvent.acquire)] ≤ 2 * 1 :=
  c2_window_release_bound 1 60000 [(0, RLEvent.acquire)] [] [(0, RLEvent.acquire)] [] 0
    (by norm_num)
    ⟨by simp, by simp [tickTimes], by simp [tickTimes]⟩
    (by simp) (by decide)

/-- C3 (counterexample): from a fresh loop, three consecutive ticks with
the same non-empty screen leave the stuck counter at 2 and fall through
to the LLM on the third tick; the executor does not send `esc` there,
contradicting the claim that the third identical snapshot triggers the
escape sequence. -/
theorem c3_counterexample :
    (stuckTicks "Main Menu" 3).2 = [TickEffect.llmTurn] ∧
    (stuckTicks "Main Menu" 3).2 ≠
      [TickEffect.sendKey "esc", TickEffect.sleepMs 500, TickEffect.sendKey "enter"] ∧
    (stuckTicks "Main Menu" 3).1.stuckCounter = 2 ∧
    jsTrim "Main Menu" ≠ "" := by
  refine ⟨by decide, by decide, by decide, by decide⟩

/-- C3 (amended): the escape sequence fires on the third consecutive hash
match, i.e. on the fourth consecutive identical snapshot when starting
from a fresh loop (whose stored hash differs from every screen hash):
tick 4 sends `esc`, sleeps 500 ms, sends `enter`, resets the stuck
counter to 0 and returns without reaching the LLM, while ticks 1-3 fall
through to the LLM. -/
theorem c3_stuck_triggers_on_third_match (screen : String) :
    (stuckTicks screen 1).2 = [TickEffect.llmTurn] ∧
    (stuckTicks screen 2).2 = [TickEffect.llmTurn] ∧
    (stuckTicks screen 3).2 = [TickEffect.llmTurn] ∧
    (stuckTicks screen 4).2 =
      [TickEffect.sendKey "esc", TickEffect.sleepMs 500, TickEffect.sendKey "enter"] ∧
    (stuckTicks screen 4).1.stuckCounter = 0 := by
  simp [stuckTicks, stuckStep, stuckInit]

/-- C4 (counterexample): parsing the E2 response does not produce the six
claimed actions — the `KEY: ⌘` line is accepted, not dropped, because
`"⌘"` (U+2318) has JS string length 1, so the output has seven actions
including `Key("⌘")`. -/
theorem c4_counterexample :
    parseActions e2Response ≠ e2ClaimedActions ∧
    Action.mk ActionType.KEY "⌘" ∈ parseActions e2Response := by
  refine ⟨by decide, by decide⟩

/-- C4 (amended): parsing the E2 response yields exactly seven actions:
Thinking, Line, Key enter, Wait 500, Wait 30000 (clamped), Key ⌘
(single UTF-16 unit, accepted), Memory noted. -/
theorem c4_parse_e2 : parseActions e2Response = e2ActualActions := by
  decide

/-- C5: telnet transparency. A chunk containing no `0xFF` byte is
forwarded unchanged and in order, and decoding a stream in which every
literal `0xFF` was escaped as a doubled `IAC` yields the original bytes —
exactly one `0xFF` is forwarded per doubled pair. -/
theorem c5_telnet_transparency (chunk : List ℕ) :
    ((0xff : ℕ) ∉ chunk → handleTelnetNegotiation chunk = chunk) ∧
    handleTelnetNegotiation (escapeIAC chunk) = chunk := by
  induction chunk with
  | nil => exact ⟨fun _ => by simp [handleTelnetNegotiation], by simp [handleTelnetNegotiation, escapeIAC]⟩
  | cons b rest ih =>
    constructor
    · intro hmem
      have hb : ¬ b = 0xff := fun h => hmem (h ▸ List.mem_cons_self b rest)
      have hr : (0xff : ℕ) ∉ rest := fun h => hmem (List.mem_cons_of_mem _ h)
      rw [handleTelnetNegotiation.eq_def]
      simp [hb, ih.1 hr]
    · by_cases hb : b = 0xff
      · subst hb
        show handleTelnetNegotiation (0xff :: 0xff :: escapeIAC rest) = 0xff :: rest
        rw [handleTelnetNegotiation.eq_def]
        simp [ih.2]
      · have he : escapeIAC (b :: rest) = b :: escapeIAC rest := by
          simp [escapeIAC, hb]
        rw [he, handleTelnetNegotiation.eq_def]
        simp [hb, ih.2]

/-- C5 witness: the negotiation example bytes `48 69` ("Hi") pass through
unchanged, and the escaped form of `48 FF 69` decodes back to it. -/
theorem c5_telnet_transparency_witness :
    handleTelnetNegotiation [0x48, 0x69] = [0x48, 0x69] ∧
    handleTelnetNegotiation (escapeIAC [0x48, 0xff, 0x69]) = [0x48, 0xff, 0x69] :=
  ⟨(c5_telnet_transparency [0x48, 0x69]).1 (by decide),
   (c5_telnet_transparency [0x48, 0xff, 0x69]).2⟩

/-- C6 (counterexample): jitter clamped at the end of an 08:00-23:00
window puts all three slots at minute 1380; min-gap enforcement (900)
pushes them to 1380, 2280, 3180, but the `Date` conversion wraps the
third slot (`hours % 24` with only one extra-day adjustment) to minute
1740 of the next day, so the sorted plan `[1380, 1740, 2280]` violates
the 900-minute gap. The random draws 9/10 lie in `[0, 1)` as
`Math.random()` requires. -/
theorem c6_counterexample :
    schedCex.min_gap_minutes = 900 ∧
    (∀ r ∈ ([9/10, 9/10, 9/10] : List ℚ), 0 ≤ r ∧ r < 1) ∧
    sortAsc (personaPlanMinutes schedCex [9/10, 9/10, 9/10]) = [1380, 1740, 2280] ∧
    ¬ (sortAsc (personaPlanMinutes schedCex [9/10, 9/10, 9/10])).Chain'
        (fun a b : ℤ => 900 ≤ b - a) := by
  refine ⟨by decide, by decide, by decide, ?_⟩
  rw [show sortAsc (personaPlanMinutes schedCex [9/10, 9/10, 9/10])
      = [1380, 1740, 2280] from by decide]
  intro hc
  have h1 := (List.chain'_cons.mp hc).1
  omega

/-- C6 (amended): the min-gap walk itself always leaves consecutive
minute slots at least `min_gap_minutes` apart, and when every enforced
slot stays below 2880 minutes (inside the single next-day adjustment the
`Date` conversion can represent) and the gap is a whole number of
minutes, the persona's scheduled times also keep consecutive gaps of at
least `min_gap_minutes`. -/
theorem c6_gap_preserved_below_wrap (sched : ScheduleW) (rands : List ℚ) (g : ℤ)
    (hg : sched.min_gap_minutes = (g : ℚ)) (hgpos : 0 < g)
    (hbound : ∀ m ∈ enforceGap sched.min_gap_minutes
        (sortAsc (generatePersonaSlots sched rands)), 0 ≤ m ∧ m < 2880) :
    (enforceGap sched.min_gap_minutes
        (sortAsc (generatePersonaSlots sched rands))).Chain'
      (fun a b => sched.min_gap_minutes ≤ b - a) ∧
    (sortAsc (personaPlanMinutes sched rands)).Chain' (fun a b : ℤ => g ≤ b - a) := by
  have hchain :
      (enforceGap sched.min_gap_minutes
        (sortAsc (generatePersonaSlots sched rands))).Chain'
        (fun a b => sched.min_gap_minutes ≤ b - a) :=
    enforceGapGo_chain _ _ _
  refine ⟨hchain, ?_⟩
  have hmapped :
      ((enforceGap sched.min_gap_minutes
        (sortAsc (generatePersonaSlots sched rands))).map toPlanMinute).Chain'
        (fun a b : ℤ => g ≤ b - a) := by
    rw [List.chain'_map]
    refine chain'_imp_of_mem _ ?_ hchain
    intro a ha b hb hr
    have hba := hbound a ha
    have hbb := hbound b hb
    rw [toPlanMinute_eq_floor a hba.1 hba.2, toPlanMinute_eq_floor b hbb.1 hbb.2]
    exact floor_gap_mono g a b (hg ▸ hr)
  have hle :
      ((enforceGap sched.min_gap_minutes
        (sortAsc (generatePersonaSlots sched rands))).map toPlanMinute).Chain' (· ≤ ·) := by
    refine hmapped.imp ?_
    intro a b hab
    omega
  have hplan : personaPlanMinutes sched rands =
      (enforceGap sched.min_gap_minutes
        (sortAsc (generatePersonaSlots sched rands))).map toPlanMinute := rfl
  rw [hplan, sortAsc_eq_self _ hle]
  exact hmapped

/-- C6 witness: the amended statement applied to a two-session schedule
in an 08:00-10:00 window with a 30-minute gap and no jitter. -/
theorem c6_gap_preserved_below_wrap_witness :
    (sortAsc (personaPlanMinutes schedOk [1/2, 1/2])).Chain'
      (fun a b : ℤ => 30 ≤ b - a) :=
  (c6_gap_preserved_below_wrap schedOk [1/2, 1/2] 30
    (by decide) (by decide) (by decide)).2

/-- Characterisation of the value stored in a parsed `WAIT` action:
either the original text, which parses to an in-range integer, or one of
the three clamp results. -/
theorem parseLine_wait_value (line : String) (v : String)
    (h : parseLine line = some ⟨ActionType.WAIT, v⟩) :
    (∃ ms : ℤ, jsParseInt10 (jsTrim v) = some ms ∧ 0 ≤ ms ∧ ms ≤ 30000) ∨
    v = "1000" ∨ v = "0" ∨ v = "30000" := by
  unfold parseLine at h
  split at h
  · simp at h
  · split at h
    · simp at h
    · split at h
      · -- KEY branch
        split at h <;> simp at h
      · -- WAIT branch
        split at h
        · -- NaN: clamp of 1000
          simp only [Option.some.injEq, Action.mk.injEq, true_and] at h
          right; left
          rw [← h]
          decide
        · rename_i ms hms
          split at h
          · -- out of range
            simp only [Option.some.injEq, Action.mk.injEq, true_and] at h
            rename_i hrange
            rcases hrange with hneg | hbig
            · right; right; left
              rw [← h, show min (max 0 ms) 30000 = 0 by omega]
              decide
            · right; right; right
              rw [← h, show min (max 0 ms) 30000 = 30000 by omega]
              decide
          · -- in range: value verbatim
            simp only [Option.some.injEq, Action.mk.injEq, true_and] at h
            rename_i hrange
            left
            refine ⟨ms, ?_, ?_, ?_⟩ <;> rw [← h] at * <;> first
              | exact hms
              | omega
      · -- other action types cannot equal WAIT
        simp_all

/-- C7: every `WAIT` action the executor sleeps on has a duration in
`[0, 30000]` ms: in-range parsed values pass through verbatim, the
parser clamps or substitutes out-of-range and unparseable values, and
the executor's `parseInt(value) || 1000` stays inside the interval (the
fallback `WAIT: 2000` included). -/
theorem c7_executed_wait_in_range (response : String) (a : Action)
    (ha : a ∈ parseActions response) (hw : a.type = ActionType.WAIT) :
    0 ≤ executedWaitMs a.value ∧ executedWaitMs a.value ≤ 30000 := by
  obtain ⟨ty, v⟩ := a
  have hty : ty = ActionType.WAIT := hw
  subst hty
  simp only [parseActions] at ha
  split at ha
  · -- synthetic fallback pair
    rcases List.mem_cons.mp ha with h | h
    · simp at h
    · rcases List.mem_cons.mp h with h2 | h2
      · simp only [Action.mk.injEq, true_and] at h2
        subst h2
        decide
      · simp at h2
  · obtain ⟨cs, _, hp⟩ := List.mem_filterMap.mp ha
    rcases parseLine_wait_value ⟨cs⟩ v hp with ⟨ms, hms, h0, h30⟩ | h | h | h
    · simp only [executedWaitMs, hms]
      split <;> omega
    · subst h; decide
    · subst h; decide
    · subst h; decide

/-- C7 witness: `WAIT: 5000` produces a wait the executor sleeps 5000 ms
on, inside the interval. -/
theorem c7_executed_wait_in_range_witness :
    0 ≤ executedWaitMs "5000" ∧ executedWaitMs "5000" ≤ 30000 :=
  c7_executed_wait_in_range "WAIT: 5000" ⟨ActionType.WAIT, "5000"⟩
    (by decide) (by decide)

/-- C8 (counterexample): with two known users stored in the order
`zeke, alice`, the known-users section lists `zeke` before `alice` —
the handles are emitted in entry order, which is not sorted. -/
theorem c8_counterexample :
    promptHandleOrder usersCex = ["zeke", "alice"] ∧
    ¬ List.Chain' handleLe (promptHandleOrder usersCex) ∧
    knownUsersSection usersCex =
      "\n## People you know on this BBS\n### zeke\n- Role: ally | Trust: 7/10 | Respect: 6/10\n- Notes: met in chat\n### alice\n- Role: rival | Trust: 2/10 | Respect: 5/10\n- Notes: flame war\n" := by
  refine ⟨by decide, ?_, by decide⟩
  intro hc
  rw [show promptHandleOrder usersCex = ["zeke", "alice"] from by decide] at hc
  have h1 : handleLe "zeke" "alice" := (List.chain'_cons.mp hc).1
  exact absurd h1 (by decide)

/-- C8 (amended): the known-users section emits one block per stored
entry, in the enumeration (insertion) order of the relationships map,
with no sorting by handle. -/
theorem c8_section_in_insertion_order
    (users : List (String × Relationship)) (h : users ≠ []) :
    knownUsersSection users =
      "\n## People you know on this BBS\n" ++ blocksConcat users ∧
    promptHandleOrder users = users.map Prod.fst := by
  refine ⟨?_, rfl⟩
  unfold knownUsersSection
  rw [if_pos (by simpa [List.length_pos] using h)]
  exact foldl_append_blocks users _

/-- C8 witness: the amended statement applied to the concrete two-user
store. -/
theorem c8_section_in_insertion_order_witness :
    knownUsersSection usersCex =
      "\n## People you know on this BBS\n" ++ blocksConcat usersCex ∧
    promptHandleOrder usersCex = usersCex.map Prod.fst :=
  c8_section_in_insertion_order usersCex (by decide)

/-- C9: a `WAIT` action whose stored value parses to the integer 0 —
for example the literal line `WAIT: 0`, or a negative wait the parser
clamped to `"0"` — makes the executor sleep 1000 ms, because
`parseInt(value) || 1000` treats 0 as falsy. -/
theorem c9_wait_zero_sleeps_1000 (response : String) (a : Action)
    (ha : a ∈ parseActions response) (hw : a.type = ActionType.WAIT)
    (h0 : jsParseInt10 (jsTrim a.value) = some 0) :
    executedWaitMs a.value = 1000 := by
  simp [executedWaitMs, h0]

/-- C9 witness: `WAIT: 0` parses to a wait action with value `"0"` and the
executor sleeps 1000 ms on it; likewise for the clamped `WAIT: -5`. -/
theorem c9_wait_zero_sleeps_1000_witness :
    executedWaitMs "0" = 1000 ∧
    parseActions "WAIT: 0" = [⟨ActionType.WAIT, "0"⟩] ∧
    parseActions "WAIT: -5" = [⟨ActionType.WAIT, "0"⟩] :=
  ⟨c9_wait_zero_sleeps_1000 "WAIT: 0" ⟨ActionType.WAIT, "0"⟩
      (by decide) (by decide) (by decide),
   by decide, by decide⟩

/-- C10: if a `waitForIdle()` promise is pending when `reset()` runs, it
resolves with the empty string, and the post-reset state has empty screen
history, a cleared last-screen record, no armed idle timer, and no
pending waiter. -/
theorem c10_reset_resolves_pending_waiter (s : TBState) (h : s.waiter = true) :
    (tbReset s).2 = some "" ∧
    (tbReset s).1.screenHistory = [] ∧
    (tbReset s).1.lastScreen = "" ∧
    (tbReset s).1.idleTimer = none ∧
    (tbReset s).1.waiter = false := by
  simp [tbReset, h]

/-- C10 witness: the reset claim applied to a concrete buffer state with
a pending waiter, armed timer, and non-empty history. -/
theorem c10_reset_resolves_pending_waiter_witness :
    (tbReset ⟨"menu", true, some 1500, true, "menu", ["menu"]⟩).2 = some "" ∧
    (tbReset ⟨"menu", true, some 1500, true, "menu", ["menu"]⟩).1.screenHistory = [] ∧
    (tbReset ⟨"menu", true, some 1500, true, "menu", ["menu"]⟩).1.lastScreen = "" ∧
    (tbReset ⟨"menu", true, some 1500, true, "menu", ["menu"]⟩).1.idleTimer = none ∧
    (tbReset ⟨"menu", true, some 1500, true, "menu", ["menu"]⟩).1.waiter = false :=
  c10_reset_resolves_pending_waiter ⟨"menu", true, some 1500, true, "menu", ["menu"]⟩ rfl

end Domuser
